import Mathlib

/-!
# Translate-SRT: a shallow embedding of `src/index.js`

The repository is a Google Cloud Function that translates SubRip (SRT)
subtitle files.  `processData` splits the downloaded text on newlines and
classifies every line (cue index, timestamp, blank, translatable text);
`translateSRTFiles` filters the translatable lines, batches them, sends each
batch to a translation backend, merges the results back at the recorded
positions, joins the lines and writes/uploads/cleans up the result.

The definitions below are translated from the source.  Machine strings are
`String` (lists of characters); the asynchronous promise chain is modelled as
a function of the event and of an environment holding the outcomes of the
external collaborators, returning the settled outcome together with a trace
of the observable actions.
-/

/-! ## Line classification (the two regexes of `src/index.js`) -/

/-- `REGEX_INDEX_LINE = /^\d+$/`: the whole line is one or more ASCII digits
(JavaScript `\d` without flags is exactly `[0-9]`). -/
def isIndexLineB (s : String) : Bool :=
  !s.data.isEmpty && s.data.all Char.isDigit

/-- Character classes of
`REGEX_TIMESTAMP_LINE = /^\d{2}:\d{2}:\d{2},\d{3} --> \d{2}:\d{2}:\d{2},\d{3}$/`,
one entry per character of the 29-character pattern. -/
def tsPattern : List (Char → Bool) :=
  let d : Char → Bool := Char.isDigit
  let lit : Char → Char → Bool := fun c x => x == c
  [d, d, lit ':', d, d, lit ':', d, d, lit ',', d, d, d,
   lit ' ', lit '-', lit '-', lit '>', lit ' ',
   d, d, lit ':', d, d, lit ':', d, d, lit ',', d, d, d]

/-- Anchored match of `REGEX_TIMESTAMP_LINE`: the line has exactly the
pattern's length and every character is in its class. -/
def isTimestampLineB (s : String) : Bool :=
  (s.data.length == tsPattern.length) &&
    (s.data.zip tsPattern).all fun cp => cp.2 cp.1

/-- The translatable-line predicate of the `filter` in `translateSRTFiles`:
`!( m || n || element === '' )` where `m`/`n` are the two regex matches. -/
def isTranslatableB (element : String) : Bool :=
  !(isIndexLineB element || isTimestampLineB element || element == "")

/-! ## Splitting and joining on newlines -/

/-- `data.split(/\n/)` on a character list: split at every newline, keeping
every segment, including empty ones (`split` on a string of n separators
yields n+1 segments). -/
def splitNlL : List Char → List (List Char)
  | [] => [[]]
  | c :: cs =>
    if c = '\n' then [] :: splitNlL cs
    else
      match splitNlL cs with
      | [] => [[c]]
      | l :: ls => (c :: l) :: ls

/-- `data.split(/\n/)` on a `String`. -/
def splitNl (s : String) : List String :=
  (splitNlL s.data).map String.mk

/-- `Array.prototype.join('\n')` on a list of character lists. -/
def joinNlL : List (List Char) → List Char
  | [] => []
  | [l] => l
  | l :: l' :: ls => l ++ '\n' :: joinNlL (l' :: ls)

/-- `join('\n')` on a list of strings. -/
def joinNl (l : List String) : String :=
  String.mk (joinNlL (l.map String.data))

/-- `content.output.join('\n')` where an entry may have been overwritten with
JavaScript `undefined` (modelled `none`): `join` renders `undefined` as `''`. -/
def jsJoinNl (l : List (Option String)) : String :=
  joinNl (l.map fun v => v.getD "")

/-! ## `processData` -/

/-- The `resultData` structure built by `processData`: all lines read, the
indices of the lines that need translation, and the output lines (defaulted to
the untranslated input). -/
structure ResultData where
  sentences : List String
  requestLines : List Nat
  output : List String
deriving Repr, DecidableEq

/-- One step of the `forEach` body of `processData`.  Both regexes are
anchored at both ends, so a successful match `m` has `m[0]` equal to the whole
line; the source's pushes of `m[0]` are therefore pushes of `element`. -/
def processLine (rd : ResultData) (element : String) (index : Nat) : ResultData :=
  if isIndexLineB element then
    { rd with sentences := rd.sentences ++ [element], output := rd.output ++ [element] }
  else if isTimestampLineB element then
    { rd with sentences := rd.sentences ++ [element], output := rd.output ++ [element] }
  else if element = "" then
    { rd with sentences := rd.sentences ++ [""], output := rd.output ++ [""] }
  else
    { sentences := rd.sentences ++ [element],
      requestLines := rd.requestLines ++ [index],
      output := rd.output ++ [element] }

/-- The `forEach` loop of `processData`, carrying the line number. -/
def processAll : List String → Nat → ResultData → ResultData
  | [], _, rd => rd
  | e :: es, i, rd => processAll es (i + 1) (processLine rd e i)

/-- `processData(data)` from `src/index.js`. -/
def processData (data : String) : ResultData :=
  processAll (splitNl data) 0 ⟨[], [], []⟩

/-- The indices that `processData` pushes onto `requestLines` while scanning
lines `ls` starting at line number `i` (same branch structure as
`processLine`). -/
def reqsFrom : List String → Nat → List Nat
  | [], _ => []
  | e :: es, i =>
    if isIndexLineB e then reqsFrom es (i + 1)
    else if isTimestampLineB e then reqsFrom es (i + 1)
    else if e = "" then reqsFrom es (i + 1)
    else i :: reqsFrom es (i + 1)

/-- `content.sentences.filter(...)` from `translateSRTFiles`. -/
def filteredOf (c : ResultData) : List String :=
  c.sentences.filter isTranslatableB

/-! ## Batching (`while` loop of `translateSRTFiles`) -/

/-- The batching `while` loop.  `fuel` bounds the number of iterations; with
`maxB ≥ 1` the loop starting at `i = 0` runs at most `filtered.length`
iterations, so the fuel supplied by `planBatches` always reaches the loop's
own exit test.  A batch is `filtered.slice(from, to+1)` with `from = i` and
`to = min(filtered.length-1, i+maxB-1)`. -/
def batchLoopF : Nat → Nat → Nat → List String → List (List String)
  | 0, _, _, _ => []
  | fuel + 1, i, maxB, filtered =>
    if i < filtered.length then
      (filtered.drop i).take (min (filtered.length - 1) (i + maxB - 1) + 1 - i) ::
        batchLoopF fuel (i + maxB) maxB filtered
    else []

/-- The list of batches the loop pushes translation requests for. -/
def planBatches (filtered : List String) (maxB : Nat) : List (List String) :=
  batchLoopF filtered.length 0 maxB filtered

/-! ## Merging translations back (`requestLines.forEach`) -/

/-- `content.requestLines.forEach((position, i) => { content.output[position] = translations[i]; })`.
A JavaScript read past the end of `translations` yields `undefined`, modelled
as `none`; the write targets are always in range (they are indices of
`sentences`), so `List.set` matches the JavaScript assignment. -/
def mergeGo : List Nat → Nat → List String → List (Option String) → List (Option String)
  | [], _, _, out => out
  | p :: ps, i, ts, out => mergeGo ps (i + 1) ts (out.set p ts[i]?)

/-- The merge step applied to the defaulted output array. -/
def mergeOut (out : List String) (reqs : List Nat) (ts : List String) : List (Option String) :=
  mergeGo reqs 0 ts (out.map some)

/-! ## Configuration constants and the output-filename rule -/

def MAX_SEGMENT_SIZE : Nat := 128

def SOURCE_LANGUAGE : String := "en"

def TARGET_LANGUAGE : String := "nl"

/-- First-occurrence split: `some (a, b)` when `s = a ++ pat ++ b` at the
leftmost occurrence of `pat`, exactly as JavaScript `String.replace` with a
plain-string pattern locates it; `none` when `pat` does not occur. -/
def firstSplit (pat : List Char) : List Char → Option (List Char × List Char)
  | [] => if pat.isPrefixOf ([] : List Char) then some ([], []) else none
  | c :: cs =>
    if pat.isPrefixOf (c :: cs) then some ([], (c :: cs).drop pat.length)
    else (firstSplit pat cs).map fun p => (c :: p.1, p.2)

/-- JavaScript `String.replace` with a plain-string pattern: replace the first
occurrence, or return the string unchanged when there is none. -/
def replaceFirstL (s pat rep : List Char) : List Char :=
  match firstSplit pat s with
  | none => s
  | some (a, b) => a ++ rep ++ b

/-- `path.parse(name).base`: the part of the path after the last `/`. -/
def baseNameL (l : List Char) : List Char :=
  (l.reverse.takeWhile fun c => c != '/').reverse

/-- Line 45 of `src/index.js`:
the translated filename is the base of the input name with the first
occurrence of `-en` replaced by `-nl`. -/
def translatedFilename (name : String) : String :=
  String.mk (replaceFirstL (baseNameL name.data)
    ("-" ++ SOURCE_LANGUAGE).data ("-" ++ TARGET_LANGUAGE).data)

/-! ## The pipeline of `translateSRTFiles` -/

/-- The trigger event record `event.data`.  An absent `name` is modelled as
`""` (JavaScript `!object.name` is also true for the empty string). -/
structure CloudEvent where
  name : String
  bucket : String
  resourceState : Option String
  contentType : Option String

/-- The external collaborators of one invocation, one field per effect: the
downloaded text (`none` when the download yields no data), the translation
backend, and the outcomes of the local write, the bucket upload and the local
delete.  Errors are carried as strings. -/
structure Env where
  download : Option String
  translateB : List String → Except String (List String)
  write : Except String Unit
  upload : Except String Unit
  unlink : Except String Unit

/-- Observable actions of one run of the pipeline. -/
structure Trace where
  logs : List String
  downloaded : Bool
  translateCalls : List (List String)
  wrote : Option String
  uploadAttempted : Bool
  unlinkAttempted : Bool
deriving Repr, DecidableEq

/-- `Promise.all` over the batch translation calls: every promise is created
before any is awaited, the joint promise resolves with the per-batch results
in dispatch order, and rejects when any call rejects. -/
def promiseAll (f : List String → Except String (List String)) :
    List (List String) → Except String (List (List String))
  | [] => Except.ok []
  | b :: bs =>
    match f b, promiseAll f bs with
    | Except.error e, _ => Except.error e
    | Except.ok r, Except.ok rs => Except.ok (r :: rs)
    | Except.ok _, Except.error e => Except.error e

/-- `translateSRTFiles(event)` as a function of the event and its
collaborators.  The deletion/deploy check at the top of the source only logs:
there is no early `return`, so every event falls through to the download.  The
first two `.then` steps map falsy data (no data, or the empty string) to the
`'Could not read data'` rejection.  The upload step has its own `.catch` that
only logs, so an upload failure does not reject the chain.  The final
`.catch` logs and re-rejects the same error, leaving the outcome unchanged. -/
def runPipeline (event : CloudEvent) (env : Env) : Except String Unit × Trace :=
  let eventLogs : List String :=
    if event.resourceState = some "not_exists" then ["This is a deletion event."]
    else if event.name = "" then ["This is a deploy event."]
    else []
  let logs0 := eventLogs ++
    ["Processing new text file: " ++ event.name ++ " (" ++
      event.contentType.getD "undefined" ++ ")"]
  let dataOpt : Option String :=
    match env.download with
    | some s => if s = "" then none else some s
    | none => none
  match dataOpt with
  | none =>
    (Except.error "Could not read data",
     { logs := logs0 ++ ["Could not read data"], downloaded := true,
       translateCalls := [], wrote := none,
       uploadAttempted := false, unlinkAttempted := false })
  | some data =>
    let content := processData data
    let filtered := filteredOf content
    let batches := planBatches filtered MAX_SEGMENT_SIZE
    match promiseAll env.translateB batches with
    | Except.error err =>
      (Except.error ("One or more translations failed (" ++ err ++ ")"),
       { logs := logs0, downloaded := true, translateCalls := batches,
         wrote := none, uploadAttempted := false, unlinkAttempted := false })
    | Except.ok results =>
      let translations := results.flatten
      let merged := mergeOut content.output content.requestLines translations
      let output := jsJoinNl merged
      match env.write with
      | Except.error e =>
        (Except.error e,
         { logs := logs0, downloaded := true, translateCalls := batches,
           wrote := none, uploadAttempted := false, unlinkAttempted := false })
      | Except.ok _ =>
        let uploadLogs : List String :=
          match env.upload with
          | Except.error e => ["Error uploading translated file to bucket: " ++ e]
          | Except.ok _ => []
        match env.unlink with
        | Except.error e =>
          (Except.error e,
           { logs := logs0 ++ uploadLogs, downloaded := true,
             translateCalls := batches, wrote := some output,
             uploadAttempted := true, unlinkAttempted := true })
        | Except.ok _ =>
          (Except.ok (),
           { logs := logs0 ++ uploadLogs ++ ["Finished."], downloaded := true,
             translateCalls := batches, wrote := some output,
             uploadAttempted := true, unlinkAttempted := true })

/-! ## Concrete events and environments used in the closed theorems -/

/-- A storage deletion notification carrying a file name (the documented
example object of `src/index.js` with `resourceState` set to `not_exists`). -/
def deletionEvent : CloudEvent :=
  { name := "sample-en.txt", bucket := "cclabs-translate",
    resourceState := some "not_exists", contentType := some "text/plain" }

/-- An ordinary storage-finalize event. -/
def sampleEvent : CloudEvent :=
  { name := "sample-en.txt", bucket := "cclabs-translate",
    resourceState := some "exists", contentType := some "text/plain" }

/-- Collaborators that all succeed, with an identity translation backend. -/
def benignEnv : Env :=
  { download := some "Hello", translateB := fun b => Except.ok b,
    write := Except.ok (), upload := Except.ok (), unlink := Except.ok () }

/-- Collaborators whose translation backend rejects every batch. -/
def failTranslateEnv : Env :=
  { download := some "Hello", translateB := fun _ => Except.error "boom",
    write := Except.ok (), upload := Except.ok (), unlink := Except.ok () }

/-- Collaborators whose bucket upload rejects; everything else succeeds. -/
def failUploadEnv : Env :=
  { download := some "Hello", translateB := fun b => Except.ok b,
    write := Except.ok (), upload := Except.error "neterr", unlink := Except.ok () }

/-- Collaborators whose download yields an empty file. -/
def emptyDownloadEnv : Env :=
  { download := some "", translateB := fun b => Except.ok b,
    write := Except.ok (), upload := Except.ok (), unlink := Except.ok () }

/-! ## Lemmas: splitting and joining -/

theorem splitNlL_ne_nil : ∀ l : List Char, splitNlL l ≠ []
  | [] => by simp [splitNlL]
  | c :: cs => by
    simp only [splitNlL]
    by_cases h : c = '\n'
    · simp [h]
    · rw [if_neg h]
      cases hs : splitNlL cs with
      | nil => simp
      | cons a as => simp

theorem joinNlL_splitNlL (l : List Char) : joinNlL (splitNlL l) = l := by
  induction l with
  | nil => rfl
  | cons c cs ih =>
    simp only [splitNlL]
    by_cases h : c = '\n'
    · subst h
      rw [if_pos rfl]
      cases hs : splitNlL cs with
      | nil => exact absurd hs (splitNlL_ne_nil cs)
      | cons a as =>
        rw [hs] at ih
        simpa [joinNlL] using ih
    · rw [if_neg h]
      cases hs : splitNlL cs with
      | nil => exact absurd hs (splitNlL_ne_nil cs)
      | cons a as =>
        rw [hs] at ih
        cases as with
        | nil =>
          simp only [joinNlL] at ih ⊢
          rw [ih]
        | cons b bs =>
          simp only [joinNlL] at ih ⊢
          rw [List.cons_append, ih]

theorem splitNlL_no_newline (l : List Char) : ∀ seg ∈ splitNlL l, '\n' ∉ seg := by
  induction l with
  | nil =>
    intro seg hseg
    simp [splitNlL] at hseg
    subst hseg
    simp
  | cons c cs ih =>
    intro seg hseg
    simp only [splitNlL] at hseg
    by_cases h : c = '\n'
    · rw [if_pos h] at hseg
      rcases List.mem_cons.mp hseg with h1 | h1
      · subst h1; simp
      · exact ih seg h1
    · rw [if_neg h] at hseg
      cases hs : splitNlL cs with
      | nil => exact absurd hs (splitNlL_ne_nil cs)
      | cons a as =>
        rw [hs] at hseg
        rcases List.mem_cons.mp hseg with h1 | h1
        · subst h1
          intro hmem
          rcases List.mem_cons.mp hmem with h2 | h2
          · exact h h2.symm
          · exact ih a (hs ▸ List.mem_cons_self a as) h2
        · exact ih seg (hs ▸ List.mem_cons_of_mem a h1)

theorem splitNlL_eq_single (l : List Char) (h : '\n' ∉ l) : splitNlL l = [l] := by
  induction l with
  | nil => rfl
  | cons c cs ih =>
    have hc : ¬c = '\n' := fun e => h (e ▸ List.mem_cons_self c cs)
    have hcs : '\n' ∉ cs := fun m => h (List.mem_cons_of_mem c m)
    simp only [splitNlL, if_neg hc]
    rw [ih hcs]

theorem splitNlL_append (a : List Char) (r : List Char) (h : '\n' ∉ a) :
    splitNlL (a ++ '\n' :: r) = a :: splitNlL r := by
  induction a with
  | nil => simp [splitNlL]
  | cons c cs ih =>
    have hc : ¬c = '\n' := fun e => h (e ▸ List.mem_cons_self c cs)
    have hcs : '\n' ∉ cs := fun m => h (List.mem_cons_of_mem c m)
    simp only [List.cons_append, splitNlL, if_neg hc, List.append_eq]
    rw [ih hcs]

theorem splitNlL_joinNlL : ∀ parts : List (List Char), parts ≠ [] →
    (∀ p ∈ parts, '\n' ∉ p) → splitNlL (joinNlL parts) = parts
  | [], hne, _ => absurd rfl hne
  | [p], _, h => by
    simp only [joinNlL]
    exact splitNlL_eq_single p (h p (by simp))
  | p :: q :: qs, _, h => by
    simp only [joinNlL]
    rw [splitNlL_append p _ (h p (by simp))]
    rw [splitNlL_joinNlL (q :: qs) (by simp) (fun x hx => h x (List.mem_cons_of_mem p hx))]

theorem joinNl_splitNl (s : String) : joinNl (splitNl s) = s := by
  apply String.ext
  show joinNlL (((splitNlL s.data).map String.mk).map String.data) = s.data
  rw [List.map_map, show (String.data ∘ String.mk) = id from rfl, List.map_id]
  exact joinNlL_splitNlL s.data

theorem splitNl_joinNl (parts : List String) (hne : parts ≠ [])
    (h : ∀ p ∈ parts, '\n' ∉ p.data) : splitNl (joinNl parts) = parts := by
  show (splitNlL (String.mk (joinNlL (parts.map String.data))).data).map String.mk = parts
  rw [show (String.mk (joinNlL (parts.map String.data))).data
      = joinNlL (parts.map String.data) from rfl]
  rw [splitNlL_joinNlL (parts.map String.data) (by simpa using hne)
    (by intro p hp; rcases List.mem_map.mp hp with ⟨x, hx, rfl⟩; exact h x hx)]
  rw [List.map_map, show (String.mk ∘ String.data) = id from rfl, List.map_id]

theorem splitNl_no_newline (x : String) : ∀ s ∈ splitNl x, '\n' ∉ s.data := by
  intro s hs
  rcases List.mem_map.mp hs with ⟨seg, hseg, rfl⟩
  exact splitNlL_no_newline x.data seg hseg

theorem splitNl_ne_nil (s : String) : splitNl s ≠ [] := by
  unfold splitNl
  simpa using splitNlL_ne_nil s.data

/-! ## Lemmas: `processData` -/

theorem processLine_sentences (rd : ResultData) (e : String) (i : Nat) :
    (processLine rd e i).sentences = rd.sentences ++ [e] := by
  unfold processLine
  split
  · rfl
  · split
    · rfl
    · split
      · next h => rw [h]
      · rfl

theorem processLine_output (rd : ResultData) (e : String) (i : Nat) :
    (processLine rd e i).output = rd.output ++ [e] := by
  unfold processLine
  split
  · rfl
  · split
    · rfl
    · split
      · next h => rw [h]
      · rfl

theorem processLine_requestLines (rd : ResultData) (e : String) (i : Nat) :
    (processLine rd e i).requestLines =
      rd.requestLines ++ (if isTranslatableB e then [i] else []) := by
  unfold processLine isTranslatableB
  by_cases h1 : isIndexLineB e <;> by_cases h2 : isTimestampLineB e <;>
    by_cases h3 : e = "" <;> simp [h1, h2, h3]

theorem reqsFrom_cons (e : String) (es : List String) (i : Nat) :
    reqsFrom (e :: es) i =
      (if isTranslatableB e then [i] else []) ++ reqsFrom es (i + 1) := by
  unfold isTranslatableB
  by_cases h1 : isIndexLineB e <;> by_cases h2 : isTimestampLineB e <;>
    by_cases h3 : e = "" <;> simp [reqsFrom, h1, h2, h3]

theorem processAll_sentences (ls : List String) : ∀ (i : Nat) (rd : ResultData),
    (processAll ls i rd).sentences = rd.sentences ++ ls := by
  induction ls with
  | nil => intro i rd; simp [processAll]
  | cons e es ih =>
    intro i rd
    simp only [processAll]
    rw [ih, processLine_sentences]
    simp

theorem processAll_output (ls : List String) : ∀ (i : Nat) (rd : ResultData),
    (processAll ls i rd).output = rd.output ++ ls := by
  induction ls with
  | nil => intro i rd; simp [processAll]
  | cons e es ih =>
    intro i rd
    simp only [processAll]
    rw [ih, processLine_output]
    simp

theorem processAll_requestLines (ls : List String) : ∀ (i : Nat) (rd : ResultData),
    (processAll ls i rd).requestLines = rd.requestLines ++ reqsFrom ls i := by
  induction ls with
  | nil => intro i rd; simp [processAll, reqsFrom]
  | cons e es ih =>
    intro i rd
    simp only [processAll]
    rw [ih, processLine_requestLines, reqsFrom_cons]
    simp

theorem processData_sentences (s : String) : (processData s).sentences = splitNl s := by
  unfold processData
  rw [processAll_sentences]
  simp

theorem processData_output (s : String) : (processData s).output = splitNl s := by
  unfold processData
  rw [processAll_output]
  simp

theorem processData_requestLines (s : String) :
    (processData s).requestLines = reqsFrom (splitNl s) 0 := by
  unfold processData
  rw [processAll_requestLines]
  simp

/-! ## Lemmas: `reqsFrom` -/

theorem reqsFrom_mem_bounds (ls : List String) : ∀ i p : Nat, p ∈ reqsFrom ls i →
    i ≤ p ∧ p < i + ls.length := by
  induction ls with
  | nil => intro i p hp; simp [reqsFrom] at hp
  | cons e es ih =>
    intro i p hp
    rw [reqsFrom_cons] at hp
    by_cases ht : isTranslatableB e
    · rw [if_pos ht, List.singleton_append] at hp
      rcases List.mem_cons.mp hp with h | h
      · subst h; simp
      · have := ih (i + 1) p h
        constructor
        · omega
        · simp only [List.length_cons]; omega
    · rw [if_neg ht, List.nil_append] at hp
      have := ih (i + 1) p hp
      constructor
      · omega
      · simp only [List.length_cons]; omega

theorem reqsFrom_pairwise (ls : List String) : ∀ i : Nat,
    List.Pairwise (· < ·) (reqsFrom ls i) := by
  induction ls with
  | nil => intro i; simp [reqsFrom]
  | cons e es ih =>
    intro i
    rw [reqsFrom_cons]
    by_cases ht : isTranslatableB e
    · rw [if_pos ht, List.singleton_append]
      refine List.pairwise_cons.mpr ⟨fun p hp => ?_, ih (i + 1)⟩
      have := reqsFrom_mem_bounds es (i + 1) p hp
      omega
    · rw [if_neg ht, List.nil_append]
      exact ih (i + 1)

theorem reqsFrom_mem_translatable (ls : List String) : ∀ i p : Nat, p ∈ reqsFrom ls i →
    isTranslatableB (ls.getD (p - i) "") = true := by
  induction ls with
  | nil => intro i p hp; simp [reqsFrom] at hp
  | cons e es ih =>
    intro i p hp
    rw [reqsFrom_cons] at hp
    by_cases ht : isTranslatableB e
    · rw [if_pos ht, List.singleton_append] at hp
      rcases List.mem_cons.mp hp with h | h
      · subst h
        simpa [Nat.sub_self] using ht
      · have hb := reqsFrom_mem_bounds es (i + 1) p h
        have h1 : p - i = (p - (i + 1)) + 1 := by omega
        rw [h1, List.getD_cons_succ]
        exact ih (i + 1) p h
    · rw [if_neg ht, List.nil_append] at hp
      have hb := reqsFrom_mem_bounds es (i + 1) p hp
      have h1 : p - i = (p - (i + 1)) + 1 := by omega
      rw [h1, List.getD_cons_succ]
      exact ih (i + 1) p hp

theorem filter_eq_map_reqsFrom (ls : List String) : ∀ i : Nat,
    ls.filter isTranslatableB = (reqsFrom ls i).map (fun p => ls.getD (p - i) "") := by
  induction ls with
  | nil => intro i; simp [reqsFrom]
  | cons e es ih =>
    intro i
    rw [reqsFrom_cons]
    by_cases ht : isTranslatableB e
    · rw [if_pos ht, List.singleton_append, List.filter_cons_of_pos ht, List.map_cons]
      congr 1
      · simp
      · rw [ih (i + 1)]
        apply List.map_congr_left
        intro p hp
        have hb := reqsFrom_mem_bounds es (i + 1) p hp
        have h1 : p - i = (p - (i + 1)) + 1 := by omega
        rw [h1, List.getD_cons_succ]
    · rw [if_neg ht, List.nil_append, List.filter_cons_of_neg (by simpa using ht)]
      rw [ih (i + 1)]
      apply List.map_congr_left
      intro p hp
      have hb := reqsFrom_mem_bounds es (i + 1) p hp
      have h1 : p - i = (p - (i + 1)) + 1 := by omega
      rw [h1, List.getD_cons_succ]

/-! ## Lemmas: the merge step -/

theorem mergeGo_length (reqs : List Nat) : ∀ (i : Nat) (ts : List String)
    (out : List (Option String)), (mergeGo reqs i ts out).length = out.length := by
  induction reqs with
  | nil => intro i ts out; rfl
  | cons p ps ih =>
    intro i ts out
    simp only [mergeGo]
    rw [ih]
    exact List.length_set ..

theorem mergeGo_not_mem (reqs : List Nat) : ∀ (i : Nat) (ts : List String)
    (out : List (Option String)) (q : Nat), q ∉ reqs →
    (mergeGo reqs i ts out)[q]? = out[q]? := by
  induction reqs with
  | nil => intro i ts out q _; rfl
  | cons p ps ih =>
    intro i ts out q hq
    simp only [mergeGo]
    rw [ih _ _ _ _ (fun h => hq (List.mem_cons_of_mem p h))]
    exact List.getElem?_set_ne (fun h => hq (by rw [← h]; exact List.mem_cons_self p ps))

theorem mergeGo_get_at (reqs : List Nat) : ∀ (i j p : Nat) (ts : List String)
    (out : List (Option String)), List.Pairwise (· ≠ ·) reqs → reqs[j]? = some p →
    p < out.length → (mergeGo reqs i ts out)[p]? = some ts[i + j]? := by
  induction reqs with
  | nil => intro i j p ts out _ hj _; simp at hj
  | cons q qs ih =>
    intro i j p ts out hpw hj hlt
    rcases List.pairwise_cons.mp hpw with ⟨hhead, htail⟩
    cases j with
    | zero =>
      simp only [List.getElem?_cons_zero, Option.some.injEq] at hj
      subst hj
      simp only [mergeGo]
      have hnot : q ∉ qs := fun hmem => (hhead q hmem) rfl
      rw [mergeGo_not_mem qs _ _ _ _ hnot]
      rw [List.getElem?_set_eq_of_lt _ hlt]
      simp
    | succ j' =>
      simp only [List.getElem?_cons_succ] at hj
      simp only [mergeGo]
      have hlt2 : p < (out.set q ts[i]?).length := by
        rw [List.length_set]; exact hlt
      rw [ih (i + 1) j' p ts _ htail hj hlt2]
      congr 2
      omega

theorem mergeGo_mem (reqs : List Nat) : ∀ (i : Nat) (ts : List String)
    (out : List (Option String)) (v : Option String), v ∈ mergeGo reqs i ts out →
    v ∈ out ∨ ∃ j : Nat, v = ts[j]? := by
  induction reqs with
  | nil => intro i ts out v hv; exact Or.inl hv
  | cons p ps ih =>
    intro i ts out v hv
    simp only [mergeGo] at hv
    rcases ih _ _ _ _ hv with h | h
    · rcases List.mem_or_eq_of_mem_set h with h2 | h2
      · exact Or.inl h2
      · exact Or.inr ⟨i, h2⟩
    · exact Or.inr h

/-! ## Lemmas: batching -/

theorem batch_take_eq (filtered : List String) (i maxB : Nat) (hi : i < filtered.length)
    (hB : 1 ≤ maxB) :
    (filtered.drop i).take (min (filtered.length - 1) (i + maxB - 1) + 1 - i) =
      (filtered.drop i).take maxB := by
  have hlen : (filtered.drop i).length = filtered.length - i := List.length_drop ..
  have harith : min (filtered.length - 1) (i + maxB - 1) + 1 - i
      = min (filtered.length - i) maxB := by omega
  rw [harith]
  rcases Nat.le_total maxB (filtered.length - i) with h | h
  · rw [Nat.min_eq_right h]
  · rw [Nat.min_eq_left h, List.take_of_length_le (le_of_eq hlen),
      List.take_of_length_le (by rw [hlen]; exact h)]

theorem batchLoopF_flatten (maxB : Nat) (hB : 1 ≤ maxB) (filtered : List String) :
    ∀ fuel i : Nat, filtered.length - i ≤ fuel →
    (batchLoopF fuel i maxB filtered).flatten = filtered.drop i := by
  intro fuel
  induction fuel with
  | zero =>
    intro i h
    simp only [batchLoopF, List.flatten_nil]
    exact (List.drop_eq_nil_of_le (by omega)).symm
  | succ fuel ih =>
    intro i h
    by_cases hi : i < filtered.length
    · simp only [batchLoopF, if_pos hi, List.flatten_cons]
      rw [batch_take_eq filtered i maxB hi hB]
      rw [ih (i + maxB) (by omega)]
      rw [show filtered.drop (i + maxB) = (filtered.drop i).drop maxB from
        (List.drop_drop maxB i filtered).symm]
      exact List.take_append_drop maxB (filtered.drop i)
    · simp only [batchLoopF, if_neg hi, List.flatten_nil]
      exact (List.drop_eq_nil_of_le (by omega)).symm

theorem batchLoopF_sizes (maxB : Nat) (hB : 1 ≤ maxB) (filtered : List String) :
    ∀ fuel i : Nat, ∀ b ∈ batchLoopF fuel i maxB filtered, b.length ≤ maxB := by
  intro fuel
  induction fuel with
  | zero => intro i b hb; simp [batchLoopF] at hb
  | succ fuel ih =>
    intro i b hb
    by_cases hi : i < filtered.length
    · simp only [batchLoopF, if_pos hi] at hb
      rcases List.mem_cons.mp hb with h1 | h1
      · subst h1
        rw [batch_take_eq filtered i maxB hi hB, List.length_take]
        exact Nat.min_le_left ..
      · exact ih (i + maxB) b h1
    · simp only [batchLoopF, if_neg hi] at hb
      simp at hb

theorem batchLoopF_ne_nil (maxB : Nat) (filtered : List String) (fuel i : Nat)
    (hfuel : 1 ≤ fuel) (hi : i < filtered.length) :
    batchLoopF fuel i maxB filtered ≠ [] := by
  cases fuel with
  | zero => omega
  | succ fuel => simp [batchLoopF, if_pos hi]

theorem batchLoopF_dropLast (maxB : Nat) (hB : 1 ≤ maxB) (filtered : List String) :
    ∀ fuel i : Nat, filtered.length - i ≤ fuel →
    ∀ b ∈ (batchLoopF fuel i maxB filtered).dropLast, b.length = maxB := by
  intro fuel
  induction fuel with
  | zero => intro i h b hb; simp [batchLoopF] at hb
  | succ fuel ih =>
    intro i h b hb
    by_cases hi : i < filtered.length
    · simp only [batchLoopF, if_pos hi] at hb
      by_cases hnext : i + maxB < filtered.length
      · have hne : batchLoopF fuel (i + maxB) maxB filtered ≠ [] :=
          batchLoopF_ne_nil maxB filtered fuel (i + maxB) (by omega) hnext
        rw [List.dropLast_cons_of_ne_nil hne] at hb
        rcases List.mem_cons.mp hb with h1 | h1
        · subst h1
          rw [batch_take_eq filtered i maxB hi hB, List.length_take, List.length_drop]
          omega
        · exact ih (i + maxB) (by omega) b h1
      · have hrest : batchLoopF fuel (i + maxB) maxB filtered = [] := by
          cases fuel with
          | zero => rfl
          | succ f => simp [batchLoopF, if_neg hnext]
        rw [hrest] at hb
        simp at hb
    · simp only [batchLoopF, if_neg hi] at hb
      simp at hb

/-! ## Lemmas: the output-filename rule -/

theorem isPrefixOf_append (l r : List Char) : l.isPrefixOf (l ++ r) = true := by
  induction l with
  | nil => simp [List.isPrefixOf]
  | cons c cs ih => simp [List.isPrefixOf, ih]

theorem firstSplit_at (t b : List Char) : ∀ a : List Char, (∀ c ∈ a, c ≠ '-') →
    firstSplit ('-' :: t) (a ++ ('-' :: t) ++ b) = some (a, b) := by
  intro a
  induction a with
  | nil =>
    intro _
    have hpre : ('-' :: t).isPrefixOf ('-' :: (t ++ b)) = true :=
      isPrefixOf_append ('-' :: t) b
    simp only [List.nil_append, List.cons_append, firstSplit, List.append_eq, hpre,
      if_true, List.length_cons, List.drop_succ_cons, List.drop_left]
  | cons c cs ih =>
    intro h
    have hc : c ≠ '-' := h c (List.mem_cons_self c cs)
    have hbeq : ('-' == c) = false := beq_eq_false_iff_ne.mpr (Ne.symm hc)
    have hpre : ('-' :: t).isPrefixOf (c :: (cs ++ ('-' :: t) ++ b)) = false := by
      simp [List.isPrefixOf, hbeq]
    simp only [List.cons_append, firstSplit, List.append_eq, hpre,
      Bool.false_eq_true, if_false]
    rw [ih (fun x hx => h x (List.mem_cons_of_mem c hx))]
    rfl

theorem replaceFirstL_at (t rep b : List Char) (a : List Char)
    (ha : ∀ c ∈ a, c ≠ '-') :
    replaceFirstL (a ++ ('-' :: t) ++ b) ('-' :: t) rep = a ++ rep ++ b := by
  unfold replaceFirstL
  rw [firstSplit_at t b a ha]

theorem baseNameL_no_slash (l : List Char) (h : ∀ c ∈ l, c ≠ '/') :
    baseNameL l = l := by
  unfold baseNameL
  rw [List.takeWhile_eq_self_iff.mpr, List.reverse_reverse]
  intro c hc
  simpa using h c (List.mem_reverse.mp hc)

/-! ## Lemmas: `Promise.all` -/

theorem promiseAll_error_of_mem (f : List String → Except String (List String)) :
    ∀ (bs : List (List String)) (b : List String) (eb : String), b ∈ bs →
    f b = Except.error eb → ∃ e, promiseAll f bs = Except.error e := by
  intro bs
  induction bs with
  | nil => intro b eb hb _; simp at hb
  | cons c cs ih =>
    intro b eb hb hf
    rcases List.mem_cons.mp hb with h | h
    · subst h
      exact ⟨eb, by simp only [promiseAll, hf]⟩
    · rcases ih b eb h hf with ⟨e, he⟩
      cases hc : f c with
      | error e2 => exact ⟨e2, by simp only [promiseAll, hc]⟩
      | ok r => exact ⟨e, by simp only [promiseAll, hc, he]⟩

/-! ## Lemmas: the merged output of one document -/

theorem isTranslatableB_ne_empty (s : String) (h : isTranslatableB s = true) :
    s ≠ "" := by
  unfold isTranslatableB at h
  simp only [Bool.not_eq_eq_eq_not, Bool.not_true, Bool.or_eq_false_iff,
    beq_eq_false_iff_ne, ne_eq] at h
  exact h.2

theorem processData_requestLines_pairwise_ne (data : String) :
    List.Pairwise (· ≠ ·) (processData data).requestLines := by
  rw [processData_requestLines]
  exact (reqsFrom_pairwise (splitNl data) 0).imp fun hlt => Nat.ne_of_lt hlt

theorem mergeOut_doc_length (data : String) (ts : List String) :
    (mergeOut (processData data).output (processData data).requestLines ts).length
      = (splitNl data).length := by
  unfold mergeOut
  rw [mergeGo_length, List.length_map, processData_output]

theorem mergeOut_doc_no_newline (data : String) (ts : List String)
    (hts : ∀ s ∈ ts, '\n' ∉ s.data) :
    ∀ v ∈ mergeOut (processData data).output (processData data).requestLines ts,
      '\n' ∉ (v.getD "").data := by
  intro v hv
  unfold mergeOut at hv
  rcases mergeGo_mem _ _ _ _ v hv with h | ⟨j, rfl⟩
  · rcases List.mem_map.mp h with ⟨o, ho, rfl⟩
    rw [processData_output] at ho
    simpa using splitNl_no_newline data o ho
  · cases hj : ts[j]? with
    | none => simp
    | some s => simpa using hts s (List.getElem?_mem hj)

theorem mergeOut_doc_join_length (data : String) (ts : List String)
    (hts : ∀ s ∈ ts, '\n' ∉ s.data) :
    (splitNl (jsJoinNl (mergeOut (processData data).output
        (processData data).requestLines ts))).length = (splitNl data).length := by
  unfold jsJoinNl
  have hlen : (mergeOut (processData data).output (processData data).requestLines ts).length
      = (splitNl data).length := mergeOut_doc_length data ts
  rw [splitNl_joinNl]
  · rw [List.length_map, hlen]
  · intro hnil
    have h0 := congrArg List.length hnil
    rw [List.length_map, hlen] at h0
    exact splitNl_ne_nil data (List.eq_nil_of_length_eq_zero h0)
  · intro p hp
    rcases List.mem_map.mp hp with ⟨v, hv, rfl⟩
    exact mergeOut_doc_no_newline data ts hts v hv

/-! ## The claims -/

/-- C1: for every input text, parsing with `processData` and reconstituting
with the identity translation mapping (the output array left at its defaults,
joined with a newline) yields output identical to the input text. -/
theorem claim1_roundtrip_identity (data : String) :
    joinNl (processData data).output = data := by
  rw [processData_output]
  exact joinNl_splitNl data

/-- C3: for every list of translatable lines and every `maxBatchSize ≥ 1`, the
batch-planning loop produces batches whose sizes are all at most
`maxBatchSize`, all batches except possibly the last have size exactly
`maxBatchSize`, and concatenating the batches in order reproduces the original
list exactly. -/
theorem claim3_planBatches_partition (filtered : List String) (maxB : Nat)
    (hB : 1 ≤ maxB) :
    (planBatches filtered maxB).flatten = filtered ∧
    (∀ b ∈ planBatches filtered maxB, b.length ≤ maxB) ∧
    (∀ b ∈ (planBatches filtered maxB).dropLast, b.length = maxB) := by
  refine ⟨?_, ?_, ?_⟩
  · have h := batchLoopF_flatten maxB hB filtered filtered.length 0 (by omega)
    simpa [planBatches] using h
  · intro b hb
    exact batchLoopF_sizes maxB hB filtered filtered.length 0 b hb
  · intro b hb
    exact batchLoopF_dropLast maxB hB filtered filtered.length 0 (by omega) b hb

/-- Witness for C3: 5 translatable lines with `maxBatchSize = 2` yield 3
batches of sizes `[2, 2, 1]` that concatenate back to the input. -/
theorem claim3_witness :
    (1 ≤ 2 ∧
      ((planBatches ["a", "b", "c", "d", "e"] 2).flatten = ["a", "b", "c", "d", "e"] ∧
        (∀ b ∈ planBatches ["a", "b", "c", "d", "e"] 2, b.length ≤ 2) ∧
        (∀ b ∈ (planBatches ["a", "b", "c", "d", "e"] 2).dropLast, b.length = 2))) ∧
    (planBatches ["a", "b", "c", "d", "e"] 2).map List.length = [2, 2, 1] :=
  ⟨⟨by decide, claim3_planBatches_partition ["a", "b", "c", "d", "e"] 2 (by decide)⟩,
    by decide⟩

/-- C9: the filter over `content.sentences` selects exactly the entries at the
indices stored in `content.requestLines`, element for element and in order;
moreover the indices are strictly increasing and within the bounds of
`content.sentences`. -/
theorem claim9_filter_requestLines_agree (data : String) :
    filteredOf (processData data) =
      (processData data).requestLines.map
        (fun p => (processData data).sentences.getD p "") ∧
    List.Pairwise (· < ·) (processData data).requestLines ∧
    ∀ p ∈ (processData data).requestLines, p < (processData data).sentences.length := by
  refine ⟨?_, ?_, ?_⟩
  · unfold filteredOf
    rw [processData_sentences, processData_requestLines]
    simpa using filter_eq_map_reqsFrom (splitNl data) 0
  · rw [processData_requestLines]
    exact reqsFrom_pairwise (splitNl data) 0
  · intro p hp
    rw [processData_requestLines] at hp
    rw [processData_sentences]
    have h := reqsFrom_mem_bounds (splitNl data) 0 p hp
    omega

/-- Witness for C9: the agreement evaluated on a small SRT document. -/
theorem claim9_witness :
    filteredOf (processData "1\nHello\nworld\n") =
      (processData "1\nHello\nworld\n").requestLines.map
        (fun p => (processData "1\nHello\nworld\n").sentences.getD p "") ∧
    List.Pairwise (· < ·) (processData "1\nHello\nworld\n").requestLines ∧
    ∀ p ∈ (processData "1\nHello\nworld\n").requestLines,
      p < (processData "1\nHello\nworld\n").sentences.length :=
  claim9_filter_requestLines_agree "1\nHello\nworld\n"

/-- C5 counterexample: for the input `"Hello"` (one line, one `TextLine`) and
the translation mapping that sends it to a string containing a newline, the
reconstituted output has 2 newline-delimited lines while the input has 1, so
the line count is not preserved for every translation mapping. -/
theorem claim5_counterexample :
    (splitNl (jsJoinNl (mergeOut (processData "Hello").output
        (processData "Hello").requestLines ["Hi\nthere"]))).length
      ≠ (splitNl "Hello").length := by decide

/-- C5 (amended): for every input text and every per-line translation mapping
whose translated strings contain no newline character, the reconstituted
output has exactly as many entries and as many newline-delimited lines as the
input, and the entries at positions not recorded in `requestLines` (the
`IndexLine`, `TimestampLine` and `BlankLine` positions) are emitted
unchanged. -/
theorem claim5_line_preservation (data : String) (ts : List String)
    (hts : ∀ s ∈ ts, '\n' ∉ s.data) :
    (mergeOut (processData data).output (processData data).requestLines ts).length
        = (splitNl data).length ∧
    (splitNl (jsJoinNl (mergeOut (processData data).output
        (processData data).requestLines ts))).length = (splitNl data).length ∧
    ∀ p : Nat, p ∉ (processData data).requestLines →
      (mergeOut (processData data).output (processData data).requestLines ts)[p]?
        = ((splitNl data).map some)[p]? := by
  refine ⟨mergeOut_doc_length data ts, mergeOut_doc_join_length data ts hts, ?_⟩
  intro p hp
  unfold mergeOut
  rw [mergeGo_not_mem _ _ _ _ _ hp, processData_output]

/-- Witness for C5 (amended): evaluated on a two-cue document with a concrete
newline-free translation mapping. -/
theorem claim5_witness :
    (∀ s ∈ (["Hallo"] : List String), '\n' ∉ s.data) ∧
    ((mergeOut (processData "1\nHello").output
        (processData "1\nHello").requestLines ["Hallo"]).length
          = (splitNl "1\nHello").length ∧
      (splitNl (jsJoinNl (mergeOut (processData "1\nHello").output
          (processData "1\nHello").requestLines ["Hallo"]))).length
        = (splitNl "1\nHello").length ∧
      ∀ p : Nat, p ∉ (processData "1\nHello").requestLines →
        (mergeOut (processData "1\nHello").output
            (processData "1\nHello").requestLines ["Hallo"])[p]?
          = ((splitNl "1\nHello").map some)[p]?) :=
  ⟨by decide, claim5_line_preservation "1\nHello" ["Hallo"] (by decide)⟩

/-- C10 counterexample: for the input `"a\nb"` (two `TextLine`s) and the
single translation `"x\ny"` (fewer entries than `requestLines`, and containing
a newline), the joined output has 3 newline-delimited lines while the input
has 2, so the claimed line-count preservation fails as stated. -/
theorem claim10_counterexample :
    (["x\ny"] : List String).length < (processData "a\nb").requestLines.length ∧
    (splitNl (jsJoinNl (mergeOut (processData "a\nb").output
        (processData "a\nb").requestLines ["x\ny"]))).length
      ≠ (splitNl "a\nb").length := by decide

/-- C10 (amended): if the concatenated translation results have fewer entries
than `content.requestLines`, the merge writes `undefined` (`none`) at every
surplus position, the join renders each such position as an empty line (not
the untranslated original text, which is nonempty there), the output element
count always equals the input line count, and — provided the supplied
translations contain no newline character — the newline-delimited line count
of the joined output equals that of the input. -/
theorem claim10_surplus_undefined (data : String) (ts : List String)
    (hlt : ts.length < (processData data).requestLines.length)
    (hts : ∀ s ∈ ts, '\n' ∉ s.data) :
    (∀ j p : Nat, ts.length ≤ j → (processData data).requestLines[j]? = some p →
      (mergeOut (processData data).output (processData data).requestLines ts)[p]?
          = some none ∧
      ((mergeOut (processData data).output (processData data).requestLines ts).map
          (fun v => v.getD ""))[p]? = some "" ∧
      (splitNl data).getD p "" ≠ "") ∧
    (mergeOut (processData data).output (processData data).requestLines ts).length
        = (splitNl data).length ∧
    (splitNl (jsJoinNl (mergeOut (processData data).output
        (processData data).requestLines ts))).length = (splitNl data).length := by
  have hlt' := hlt
  refine ⟨?_, mergeOut_doc_length data ts, mergeOut_doc_join_length data ts hts⟩
  intro j p hj hp
  have hpmem : p ∈ (processData data).requestLines := List.getElem?_mem hp
  have hpmem' := hpmem
  rw [processData_requestLines] at hpmem'
  have hbound : p < (splitNl data).length := by
    have h := reqsFrom_mem_bounds (splitNl data) 0 p hpmem'
    omega
  have hmerged : (mergeOut (processData data).output
      (processData data).requestLines ts)[p]? = some none := by
    unfold mergeOut
    rw [mergeGo_get_at _ 0 j p ts _ (processData_requestLines_pairwise_ne data) hp
      (by rw [List.length_map, processData_output]; exact hbound)]
    rw [List.getElem?_eq_none (l := ts) (by omega)]
  refine ⟨hmerged, ?_, ?_⟩
  · rw [List.getElem?_map, hmerged]
    rfl
  · have htr := reqsFrom_mem_translatable (splitNl data) 0 p hpmem'
    simp only [Nat.sub_zero] at htr
    exact isTranslatableB_ne_empty _ htr

/-- Witness for C10 (amended): evaluated on a three-`TextLine` document with a
single newline-free translation, so positions 1 and 2 are surplus. -/
theorem claim10_witness :
    ((["X"] : List String).length < (processData "a\nb\nc").requestLines.length ∧
      (∀ s ∈ (["X"] : List String), '\n' ∉ s.data)) ∧
    ((∀ j p : Nat, (["X"] : List String).length ≤ j →
        (processData "a\nb\nc").requestLines[j]? = some p →
        (mergeOut (processData "a\nb\nc").output
            (processData "a\nb\nc").requestLines ["X"])[p]? = some none ∧
        ((mergeOut (processData "a\nb\nc").output
            (processData "a\nb\nc").requestLines ["X"]).map
            (fun v => v.getD ""))[p]? = some "" ∧
        (splitNl "a\nb\nc").getD p "" ≠ "") ∧
      (mergeOut (processData "a\nb\nc").output
          (processData "a\nb\nc").requestLines ["X"]).length
        = (splitNl "a\nb\nc").length ∧
      (splitNl (jsJoinNl (mergeOut (processData "a\nb\nc").output
          (processData "a\nb\nc").requestLines ["X"]))).length
        = (splitNl "a\nb\nc").length) :=
  ⟨⟨by decide, by decide⟩,
    claim10_surplus_undefined "a\nb\nc" ["X"] (by decide) (by decide)⟩

/-- C2 (code-bug evidence): the source's deletion/deploy check only logs and
does not return, so a deletion event (`resourceState === 'not_exists'`) is
fully processed: the download is attempted, translation calls are issued, and
the output is written — contrary to the claim (and to the source's own comment
`Exit if this is a deletion or a deploy event.`). -/
theorem claim2_deletion_event_still_processes :
    (runPipeline deletionEvent benignEnv).2.logs.head?
        = some "This is a deletion event." ∧
    (runPipeline deletionEvent benignEnv).2.downloaded = true ∧
    (runPipeline deletionEvent benignEnv).2.translateCalls = [["Hello"]] ∧
    (runPipeline deletionEvent benignEnv).2.wrote = some "Hello" ∧
    (runPipeline deletionEvent benignEnv).1 = Except.ok () :=
  ⟨rfl, rfl, rfl, rfl, rfl⟩

/-- C4: if any single batch translation call fails, the pipeline rejects with
the underlying cause included in the message, and no output is written, no
upload and no cleanup is attempted. -/
theorem claim4_translation_failure_rejects (event : CloudEvent) (env : Env)
    (data : String) (b : List String) (eb : String)
    (hdl : env.download = some data) (hne : data ≠ "")
    (hb : b ∈ planBatches (filteredOf (processData data)) MAX_SEGMENT_SIZE)
    (hfail : env.translateB b = Except.error eb) :
    ∃ e, (runPipeline event env).1
        = Except.error ("One or more translations failed (" ++ e ++ ")") ∧
      (runPipeline event env).2.wrote = none ∧
      (runPipeline event env).2.uploadAttempted = false ∧
      (runPipeline event env).2.unlinkAttempted = false := by
  obtain ⟨e, he⟩ := promiseAll_error_of_mem env.translateB _ b eb hb hfail
  refine ⟨e, ?_, ?_, ?_, ?_⟩ <;> simp [runPipeline, hdl, hne, he]

/-- Witness for C4: a backend that rejects its single batch makes the run
reject without writing, uploading or deleting anything. -/
theorem claim4_witness :
    failTranslateEnv.download = some "Hello" ∧
    (∃ e, (runPipeline sampleEvent failTranslateEnv).1
        = Except.error ("One or more translations failed (" ++ e ++ ")") ∧
      (runPipeline sampleEvent failTranslateEnv).2.wrote = none ∧
      (runPipeline sampleEvent failTranslateEnv).2.uploadAttempted = false ∧
      (runPipeline sampleEvent failTranslateEnv).2.unlinkAttempted = false) :=
  ⟨rfl, claim4_translation_failure_rejects sampleEvent failTranslateEnv "Hello"
    ["Hello"] "boom" rfl (by decide) (by decide) rfl⟩

/-- C6: when the downloaded content is absent or empty, the pipeline rejects
with `Could not read data` before any translation call is issued and before
any local write or upload is attempted. -/
theorem claim6_empty_data_rejects (event : CloudEvent) (env : Env)
    (h : env.download = none ∨ env.download = some "") :
    (runPipeline event env).1 = Except.error "Could not read data" ∧
    (runPipeline event env).2.translateCalls = [] ∧
    (runPipeline event env).2.wrote = none ∧
    (runPipeline event env).2.uploadAttempted = false ∧
    (runPipeline event env).2.unlinkAttempted = false := by
  rcases h with h | h <;> refine ⟨?_, ?_, ?_, ?_, ?_⟩ <;> simp [runPipeline, h]

/-- Witness for C6: an empty downloaded file. -/
theorem claim6_witness :
    (emptyDownloadEnv.download = none ∨ emptyDownloadEnv.download = some "") ∧
    ((runPipeline sampleEvent emptyDownloadEnv).1
        = Except.error "Could not read data" ∧
      (runPipeline sampleEvent emptyDownloadEnv).2.translateCalls = [] ∧
      (runPipeline sampleEvent emptyDownloadEnv).2.wrote = none ∧
      (runPipeline sampleEvent emptyDownloadEnv).2.uploadAttempted = false ∧
      (runPipeline sampleEvent emptyDownloadEnv).2.unlinkAttempted = false) :=
  ⟨Or.inr rfl, claim6_empty_data_rejects sampleEvent emptyDownloadEnv (Or.inr rfl)⟩

/-- C7: in a run that downloads data and translates successfully, an upload
failure is only logged — the cleanup still runs and its outcome alone decides
the reported result — while a local write failure or a cleanup failure each
rejects the pipeline. -/
theorem claim7_upload_failure_nonfatal (event : CloudEvent) (env : Env)
    (data : String) (results : List (List String))
    (hdl : env.download = some data) (hne : data ≠ "")
    (hok : promiseAll env.translateB
        (planBatches (filteredOf (processData data)) MAX_SEGMENT_SIZE)
      = Except.ok results) :
    (∀ u : String, env.upload = Except.error u → env.write = Except.ok () →
      (runPipeline event env).2.unlinkAttempted = true ∧
      (runPipeline event env).1 = env.unlink) ∧
    (∀ w : String, env.write = Except.error w →
      (runPipeline event env).1 = Except.error w ∧
      (runPipeline event env).2.uploadAttempted = false ∧
      (runPipeline event env).2.unlinkAttempted = false) ∧
    (∀ u : String, env.unlink = Except.error u → env.write = Except.ok () →
      (runPipeline event env).1 = Except.error u) := by
  refine ⟨?_, ?_, ?_⟩
  · intro u hu hw
    cases hun : env.unlink with
    | error e =>
      refine ⟨?_, ?_⟩ <;> simp [runPipeline, hdl, hne, hok, hw, hu, hun]
    | ok x =>
      cases x
      refine ⟨?_, ?_⟩ <;> simp [runPipeline, hdl, hne, hok, hw, hu, hun]
  · intro w hw
    refine ⟨?_, ?_, ?_⟩ <;> simp [runPipeline, hdl, hne, hok, hw]
  · intro u hu hw
    simp [runPipeline, hdl, hne, hok, hw, hu]

/-- Witness for C7: a failing upload with succeeding write and cleanup yields
a successful run in which the cleanup still ran. -/
theorem claim7_witness :
    failUploadEnv.upload = Except.error "neterr" ∧
    failUploadEnv.write = Except.ok () ∧
    ((runPipeline sampleEvent failUploadEnv).2.unlinkAttempted = true ∧
      (runPipeline sampleEvent failUploadEnv).1 = failUploadEnv.unlink) :=
  ⟨rfl, rfl,
    (claim7_upload_failure_nonfatal sampleEvent failUploadEnv "Hello" [["Hello"]]
      rfl (by decide) rfl).1 "neterr" rfl rfl⟩


/-! ## C8: the output-filename rule is first-occurrence replacement -/

theorem firstSplit_eq_none (pat : List Char) :
    ∀ s : List Char, (∀ k : Nat, pat.isPrefixOf (s.drop k) = false) →
    firstSplit pat s = none := by
  intro s
  induction s with
  | nil =>
    intro h
    have h0 := h 0
    simp only [List.drop_nil] at h0
    simp [firstSplit, h0]
  | cons c cs ih =>
    intro h
    have h0 := h 0
    simp only [List.drop_zero] at h0
    simp only [firstSplit, h0, Bool.false_eq_true, if_false]
    have h' : ∀ k : Nat, pat.isPrefixOf (cs.drop k) = false := fun k => by
      have hk := h (k + 1)
      simpa using hk
    rw [ih h']
    rfl

theorem firstSplit_eq_some (pat : List Char) :
    ∀ (s : List Char) (j : Nat), pat.isPrefixOf (s.drop j) = true →
    (∀ k : Nat, k < j → pat.isPrefixOf (s.drop k) = false) →
    firstSplit pat s = some (s.take j, s.drop (j + pat.length)) := by
  intro s
  induction s with
  | nil =>
    intro j hj _
    simp only [List.drop_nil] at hj
    simp [firstSplit, hj]
  | cons c cs ih =>
    intro j hj hk
    cases j with
    | zero =>
      simp only [List.drop_zero] at hj
      simp only [firstSplit, hj, if_true, List.take_zero, Nat.zero_add]
    | succ j' =>
      have h0 := hk 0 (Nat.succ_pos j')
      simp only [List.drop_zero] at h0
      simp only [firstSplit, h0, Bool.false_eq_true, if_false]
      have hj' : pat.isPrefixOf (cs.drop j') = true := by simpa using hj
      have hk' : ∀ k : Nat, k < j' → pat.isPrefixOf (cs.drop k) = false :=
        fun k hklt => by
          have hks := hk (k + 1) (by omega)
          simpa using hks
      rw [ih j' hj' hk']
      have harith : j' + 1 + pat.length = (j' + pat.length) + 1 := by omega
      simp only [List.take_succ_cons, harith, List.drop_succ_cons]
      rfl

/-- C8 counterexample: for the input filename `x-encode-en.txt`, the code
replaces the first occurrence of `-en` (inside `x-encode`), producing
`x-nlcode-en.txt` rather than the suffix-token replacement `x-encode-nl.txt`
the claim's rule prescribes. -/
theorem claim8_counterexample :
    translatedFilename "x-encode-en.txt" ≠ "x-encode-nl.txt" ∧
    translatedFilename "x-encode-en.txt" = "x-nlcode-en.txt" := by decide

/-- C8 (amended): for every input filename, the output filename is the input
filename's base name with the FIRST occurrence of the source-language token
`-{sourceLang}` replaced by the target-language token `-{targetLang}`, and the
base name unchanged when the token does not occur; replacement position `j` is
the least position where the token is a prefix of the remaining suffix. -/
theorem claim8_first_occurrence_rule (name : String) :
    ((∀ k : Nat, ("-" ++ SOURCE_LANGUAGE).data.isPrefixOf
        ((baseNameL name.data).drop k) = false) →
      translatedFilename name = String.mk (baseNameL name.data)) ∧
    (∀ j : Nat, ("-" ++ SOURCE_LANGUAGE).data.isPrefixOf
        ((baseNameL name.data).drop j) = true →
      (∀ k : Nat, k < j → ("-" ++ SOURCE_LANGUAGE).data.isPrefixOf
        ((baseNameL name.data).drop k) = false) →
      translatedFilename name = String.mk ((baseNameL name.data).take j
        ++ ("-" ++ TARGET_LANGUAGE).data
        ++ (baseNameL name.data).drop (j + ("-" ++ SOURCE_LANGUAGE).data.length))) := by
  constructor
  · intro h
    show String.mk (replaceFirstL (baseNameL name.data)
      ("-" ++ SOURCE_LANGUAGE).data ("-" ++ TARGET_LANGUAGE).data) = _
    unfold replaceFirstL
    rw [firstSplit_eq_none _ _ h]
  · intro j hj hk
    show String.mk (replaceFirstL (baseNameL name.data)
      ("-" ++ SOURCE_LANGUAGE).data ("-" ++ TARGET_LANGUAGE).data) = _
    unfold replaceFirstL
    rw [firstSplit_eq_some _ _ j hj hk]

/-- Witness for C8 (amended): for `sample-en.txt` the first occurrence of
`-en` is at position 6, and the replacement yields `sample-nl.txt`. -/
theorem claim8_first_occurrence_witness :
    (("-" ++ SOURCE_LANGUAGE).data.isPrefixOf
        ((baseNameL ("sample-en.txt" : String).data).drop 6) = true ∧
      (∀ k : Nat, k < 6 → ("-" ++ SOURCE_LANGUAGE).data.isPrefixOf
        ((baseNameL ("sample-en.txt" : String).data).drop k) = false)) ∧
    translatedFilename "sample-en.txt"
      = String.mk ((baseNameL ("sample-en.txt" : String).data).take 6
        ++ ("-" ++ TARGET_LANGUAGE).data
        ++ (baseNameL ("sample-en.txt" : String).data).drop
            (6 + ("-" ++ SOURCE_LANGUAGE).data.length)) ∧
    translatedFilename "sample-en.txt" = "sample-nl.txt" :=
  ⟨⟨by decide, by decide⟩,
    (claim8_first_occurrence_rule "sample-en.txt").2 6 (by decide) (by decide),
    by decide⟩
